import Mathlib

/-!
Verification of the chromanode master indexer (bin/chromanode-master.js).

The sync engine is embedded shallowly: SQL tables become lists of row
structures, the parametrized SQL statements issued by the indexer become a
`Query` datatype with an executable semantics `applyQuery`, and the
transactional boundary of the storage layer (`executeTransaction`, which is
implemented in lib/storage and is therefore modelled from the spec) runs a
list of queries with commit-on-success / rollback-on-error semantics.

The per-cycle body of `Indexer.prototype.catchUp` becomes `catchUpOnce`, the
`setImmediate` re-scheduling loop becomes `catchUpTrace`, and the outer
`Indexer.prototype.mainLoop` cycle becomes `mainLoopOnce`.
-/

namespace Chromanode

/-- A parsed output-script chunk (bitcore script chunk); `buf` is the chunk's
data buffer. -/
structure Chunk where
  buf : List Nat
deriving DecidableEq

/-- The script classification used by `saveOutputs`.  The bitcore predicates
`isPublicKeyHashOut` / `isScriptHashOut` / `isMultisigOut` / `isPublicKeyOut`
live in the external bitcore library; following the design note of the spec,
a script carries a closed tag for which of the mutually exclusive standard
patterns it matches (`other` covers empty / nonstandard / data-carrying). -/
inductive ScriptClass
  | pubkeyhash
  | scripthash
  | multisig
  | pubkey
  | other
deriving DecidableEq

/-- A parsed output script: its ordered chunks plus its classification. -/
structure Script where
  chunks : List Chunk
  cls : ScriptClass
deriving DecidableEq

/-- The address type tag passed to the bitcore `Address` constructor. -/
inductive AddrType
  | payToPublicKeyHash
  | payToScriptHash
deriving DecidableEq

/-- An address value: the 20-byte hash payload plus its type tag (the network
tag passed to `new Address(...)` does not affect any claim and is omitted). -/
structure Addr where
  hash : List Nat
  typ : AddrType
deriving DecidableEq

/-- A transaction output: script and value in satoshis. -/
structure Output where
  script : Script
  satoshis : Nat
deriving DecidableEq

/-- A transaction: id, raw serialization (`tx.toString()`), outputs. -/
structure Tx where
  id : List Nat
  raw : List Nat
  outputs : List Output
deriving DecidableEq

/-- A block as returned by `getBlock`: id, raw header, transactions. -/
structure Block where
  id : List Nat
  header : List Nat
  transactions : List Tx
deriving DecidableEq

/-- A chain tip `{height, blockid}` as used for `bestBlock` and
`bitcoindBestBlock`. -/
structure ChainTip where
  height : Nat
  blockid : List Nat
deriving DecidableEq

/-! ## Storage rows and tables -/

/-- A row of the `blocks` table. -/
structure BlockRow where
  height : Nat
  blockid : List Nat
  header : List Nat
  txids : List Nat
deriving DecidableEq

/-- A row of the `transactions` table (`height` is nullable). -/
structure TxRow where
  txid : List Nat
  tx : List Nat
  height : Option Nat
deriving DecidableEq

/-- A row of the `history` table (`height` is nullable). -/
structure HistoryRow where
  address : Addr
  txid : List Nat
  index : Nat
  value : Nat
  height : Option Nat
deriving DecidableEq

/-- A row of the `transactions_mempool` table. -/
structure MempoolTxRow where
  txid : List Nat
  tx : List Nat
deriving DecidableEq

/-- A row of the `history_mempool` table. -/
structure MempoolHistoryRow where
  address : Addr
  txid : List Nat
  index : Nat
  value : Nat
deriving DecidableEq

/-- The five tables of the schema. -/
structure Storage where
  blocks : List BlockRow
  transactions : List TxRow
  history : List HistoryRow
  transactions_mempool : List MempoolTxRow
  history_mempool : List MempoolHistoryRow
deriving DecidableEq

def emptyStorage : Storage := ⟨[], [], [], [], []⟩

/-! ## Queries

Each SQL statement issued by the indexer becomes a `Sql` tag plus a
parameter list; `applyQuery` gives the statement its semantics, returning
`none` when the bind parameters do not fit the statement (as PostgreSQL
rejects a bind message whose parameter count does not match). -/

/-- A bind parameter value: a number, a `\x`-escaped byte string, a plain
string (`saveOutputs` passes `tx.id` without the `\x` escape), or an address
rendered with `address.toString()`. -/
inductive Val
  | vNum (n : Nat)
  | vHex (b : List Nat)
  | vStr (b : List Nat)
  | vAddr (a : Addr)
deriving DecidableEq

/-- The SQL statements appearing in bin/chromanode-master.js, tagged by
statement text. -/
inductive Sql
  | insertTransactions
  | insertTransactionsMempool
  | insertHistory5
  | insertHistory4
  | insertBlocks
  | truncateMempoolTables
  | deleteBlocksFrom
  | deleteTransactionsFrom
  | deleteHistoryFrom
deriving DecidableEq

/-- A parametrized query as passed to `client.queryAsync`. -/
structure Query where
  sql : Sql
  params : List Val
deriving DecidableEq

/-- SQL three-valued comparison `height >= t` on a nullable column: a NULL
height compares as not-true. -/
def sqlHeightGE (h : Option Nat) (t : Nat) : Bool :=
  match h with
  | some x => t ≤ x
  | none => false

/-- Semantics of one query against the storage state.  `none` means the
statement errors (wrong bind-parameter shape), which aborts the enclosing
transaction. -/
def applyQuery (q : Query) (st : Storage) : Option Storage :=
  match q.sql, q.params with
  | .insertTransactions, [.vHex txid, .vHex tx, .vNum h] =>
      some { st with transactions := st.transactions ++ [⟨txid, tx, some h⟩] }
  | .insertTransactionsMempool, [.vHex txid, .vHex tx] =>
      some { st with transactions_mempool := st.transactions_mempool ++ [⟨txid, tx⟩] }
  | .insertHistory5, [.vAddr a, .vStr txid, .vNum i, .vNum v, .vNum h] =>
      some { st with history := st.history ++ [⟨a, txid, i, v, some h⟩] }
  | .insertHistory4, [.vAddr a, .vStr txid, .vNum i, .vNum v] =>
      some { st with history := st.history ++ [⟨a, txid, i, v, none⟩] }
  | .insertBlocks, [.vNum h, .vHex bid, .vHex hdr, .vHex txids] =>
      some { st with blocks := st.blocks ++ [⟨h, bid, hdr, txids⟩] }
  | .truncateMempoolTables, [] =>
      some { st with transactions_mempool := [], history_mempool := [] }
  | .deleteBlocksFrom, [.vNum h] =>
      some { st with blocks := st.blocks.filter (fun r => !(sqlHeightGE (some r.height) h)) }
  | .deleteTransactionsFrom, [.vNum h] =>
      some { st with transactions := st.transactions.filter (fun r => !(sqlHeightGE r.height h)) }
  | .deleteHistoryFrom, [.vNum h] =>
      some { st with history := st.history.filter (fun r => !(sqlHeightGE r.height h)) }
  | _, _ => none

/-- Run a list of queries in order; `fails` is the environment's oracle for
storage-level errors (constraint violations, connection failures) on a given
query.  Any error aborts the run. -/
def runQueries (fails : Query → Bool) : List Query → Storage → Option Storage
  | [], st => some st
  | q :: qs, st =>
      if fails q then none
      else
        match applyQuery q st with
        | none => none
        | some st1 => runQueries fails qs st1

/-- Modelled from the spec: `executeTransaction(work)` (lib/storage, not part
of the provided sources) runs the body inside a single storage transaction
and guarantees commit on normal completion and rollback on any error, on
every exit path.  The second component records whether the transaction
committed. -/
def executeTransaction (fails : Query → Bool) (qs : List Query) (st : Storage) :
    Storage × Bool :=
  match runQueries fails qs st with
  | some st1 => (st1, true)
  | none => (st, false)

/-! ## The address extractor (`saveOutputs` classification) -/

def emptyChunk : Chunk := ⟨[]⟩

/-- The address list computed by `saveOutputs` for one output script.
`hash160` stands for the external `bitcore.crypto.Hash.sha256ripemd160`.
Note the multisig branch: the source maps over `script.chunks.slice(1, -2)`
but hashes `script.chunks[0].buf` in every iteration. -/
def extractAddresses (hash160 : List Nat → List Nat) (script : Script) : List Addr :=
  match script.cls with
  | .pubkeyhash =>
      [⟨(script.chunks.getD 2 emptyChunk).buf, .payToPublicKeyHash⟩]
  | .scripthash =>
      [⟨(script.chunks.getD 1 emptyChunk).buf, .payToScriptHash⟩]
  | .multisig =>
      ((script.chunks.drop 1).dropLast.dropLast).map
        (fun _pubKey => ⟨hash160 (script.chunks.getD 0 emptyChunk).buf, .payToPublicKeyHash⟩)
  | .pubkey =>
      [⟨hash160 (script.chunks.getD 0 emptyChunk).buf, .payToPublicKeyHash⟩]
  | .other => []

/-! ## `storeTransactions` -/

/-- The `saveTx` query: `INSERT INTO transactions_mempool (txid, tx)` in
mempool mode (`height` absent), `INSERT INTO transactions (txid, tx, height)`
otherwise. -/
def saveTxQuery (height : Option Nat) (tx : Tx) : Query :=
  match height with
  | none => ⟨.insertTransactionsMempool, [.vHex tx.id, .vHex tx.raw]⟩
  | some h => ⟨.insertTransactions, [.vHex tx.id, .vHex tx.raw, .vNum h]⟩

/-- `saveInputs` issues no queries (`Promise.resolve()`). -/
def saveInputsQueries (_tx : Tx) : List Query := []

/-- The per-address `storeOut` queries for one output.  The source reassigns
`params = [address.toString()].concat(params)` inside `addresses.map`, so
each iteration prepends its address to the parameter list accumulated by the
previous iterations. -/
def addrInsertQueries (sql : Sql) (ps : List Val) : List Addr → List Query
  | [] => []
  | a :: rest =>
      ⟨sql, Val.vAddr a :: ps⟩ :: addrInsertQueries sql (Val.vAddr a :: ps) rest

/-- The `storeOut` statement: `INSERT INTO history (address, txid, index,
value)` in mempool mode, `INSERT INTO history (address, txid, index, value,
height)` otherwise — both target the `history` table. -/
def storeOutSql (height : Option Nat) : Sql :=
  match height with
  | none => .insertHistory4
  | some _ => .insertHistory5

/-- The queries issued by `saveOutputs` for one transaction: per output (with
its index), the address inserts for the extracted addresses.  The base
parameter list is `[txid, index, satoshis]` plus the height when not in
mempool mode. -/
def saveOutputsQueries (hash160 : List Nat → List Nat) (height : Option Nat) (tx : Tx) :
    List Query :=
  (tx.outputs.enum.map (fun p =>
    addrInsertQueries (storeOutSql height)
      ([Val.vStr tx.id, Val.vNum p.1, Val.vNum p.2.satoshis] ++
        (match height with
         | none => []
         | some h => [Val.vNum h]))
      (extractAddresses hash160 p.2.script))).flatten

/-- All queries issued by `Indexer.prototype.storeTransactions`: per
transaction, `saveTx`, then `saveInputs` (none), then `saveOutputs`. -/
def storeTransactionsQueries (hash160 : List Nat → List Nat) (txs : List Tx)
    (height : Option Nat) : List Query :=
  (txs.map (fun tx =>
    saveTxQuery height tx :: (saveInputsQueries tx ++ saveOutputsQueries hash160 height tx))).flatten

/-! ## `catchUp` -/

/-- `tryTruncateMempool` in the block-import branch: issues the TRUNCATE of
both mempool tables only when `mempoolTruncated` is still false. -/
def tryTruncateQueries (mempoolTruncated : Bool) : List Query :=
  if mempoolTruncated then [] else [⟨.truncateMempoolTables, []⟩]

/-- The `INSERT INTO blocks (height, blockid, header, txids)` query. -/
def blockInsertQuery (height : Nat) (b : Block) : Query :=
  ⟨.insertBlocks,
    [.vNum height, .vHex b.id, .vHex b.header, .vHex ((b.transactions.map Tx.id).flatten)]⟩

/-- The queries of one block-import transaction: `tryTruncateMempool(client)`
first, then the block row, then `storeTransactions(client, txs, height)`. -/
def importBlockQueries (hash160 : List Nat → List Nat) (mempoolTruncated : Bool)
    (height : Nat) (b : Block) : List Query :=
  tryTruncateQueries mempoolTruncated ++
    (blockInsertQuery height b :: storeTransactionsQueries hash160 b.transactions (some height))

/-- The deletes of the reorg branch: `DELETE FROM blocks / transactions /
history WHERE height >= $1`. -/
def rollbackQueries (height : Nat) : List Query :=
  [⟨.deleteBlocksFrom, [.vNum height]⟩,
   ⟨.deleteTransactionsFrom, [.vNum height]⟩,
   ⟨.deleteHistoryFrom, [.vNum height]⟩]

/-- The storage effect of the reorg branch's transaction.  The branch calls
`tryTruncateMempool()` with no argument: when `mempoolTruncated` is still
false the function dereferences the undefined `client`, the thrown TypeError
escapes the transaction body and the whole transaction rolls back; when the
flag is already true the call is a no-op and only the three deletes run. -/
def reorgStorageEffect (fails : Query → Bool) (mempoolTruncated : Bool) (height : Nat)
    (st : Storage) : Storage × Bool :=
  if mempoolTruncated then executeTransaction fails (rollbackQueries height) st
  else (st, false)

/-- Modelled from the spec: `storage.getBestBlock()` (lib/storage, not part of
the provided sources) returns the highest committed `{height, blockid}`, or a
defined genesis default when the `blocks` table is empty. -/
def genesisBestBlock : ChainTip := ⟨0, []⟩

/-- Modelled from the spec: the best (max-height) committed block row. -/
def bestBlockRow : List BlockRow → Option BlockRow
  | [] => none
  | r :: rs =>
      match bestBlockRow rs with
      | none => some r
      | some r1 => some (if r1.height ≤ r.height then r else r1)

/-- Modelled from the spec: `storage.getBestBlock()`. -/
def getBestBlock (st : Storage) : ChainTip :=
  match bestBlockRow st.blocks with
  | some r => ⟨r.height, r.blockid⟩
  | none => genesisBestBlock

/-- The in-process state of the indexer during a catch-up run: the two tips,
the run-local `mempoolTruncated` flag of `catchUp`, and the storage. -/
structure IState where
  bestBlock : ChainTip
  bitcoindBestBlock : ChainTip
  mempoolTruncated : Bool
  storage : Storage
deriving DecidableEq

/-- The environment one `once()` cycle interacts with: the remote tip a
re-query would return, the block a fetch at a given height returns, the
storage failure oracle, and the external hash function. -/
structure CatchUpEnv where
  remote : ChainTip
  blockAt : Nat → Block
  fails : Query → Bool
  hash160 : List Nat → List Nat

/-- How one `once()` cycle ends: rescheduled via `setImmediate` (a normal
block import or a caught `ReorgFound`), resolved (`SyncComplete`), or
rejected (any other error). -/
inductive Outcome
  | continued
  | completed
  | failed
deriving DecidableEq

/-- Observables of one `once()` cycle. -/
structure StepInfo where
  requeried : Bool
  localHeight : Nat
  remoteHeight : Nat
  isImport : Bool
  committed : Bool
  queries : List Query
  outcome : Outcome
deriving DecidableEq

/-- The sync-status check at the head of `once()`: the cycle skips the
remote-tip re-query exactly when `bestBlock.height + 100 <
bitcoindBestBlock.height` (still far behind the cached remote tip). -/
def requeryFlag (s : IState) : Bool :=
  !(decide (s.bestBlock.height + 100 < s.bitcoindBestBlock.height))

/-- The remote tip the rest of the cycle works with: the freshly queried one
when the cycle re-queries, the cached one otherwise. -/
def effectiveRemote (env : CatchUpEnv) (s : IState) : ChainTip :=
  if requeryFlag s then env.remote else s.bitcoindBestBlock

/-- One execution of `once()` inside `Indexer.prototype.catchUp`. -/
def catchUpOnce (env : CatchUpEnv) (s : IState) : IState × StepInfo :=
  let requery : Bool := requeryFlag s
  let remote := effectiveRemote env s
  let info : StepInfo :=
    { requeried := requery, localHeight := s.bestBlock.height,
      remoteHeight := s.bitcoindBestBlock.height, isImport := false,
      committed := false, queries := [], outcome := .continued }
  let s1 : IState := { s with bitcoindBestBlock := remote }
  if requery = true ∧ s.bestBlock.blockid = remote.blockid then
    (s1, { info with outcome := .completed })
  else if remote.height ≤ s1.bestBlock.height then
    match reorgStorageEffect env.fails s1.mempoolTruncated remote.height s1.storage with
    | (st1, true) =>
        ({ s1 with storage := st1, bestBlock := getBestBlock st1 },
         { info with queries := rollbackQueries remote.height, committed := true,
                     outcome := .continued })
    | (st1, false) =>
        ({ s1 with storage := st1, mempoolTruncated := true },
         { info with queries := rollbackQueries remote.height, committed := false,
                     outcome := .failed })
  else
    let h := s1.bestBlock.height + 1
    let b := env.blockAt h
    let qs := importBlockQueries env.hash160 s1.mempoolTruncated h b
    match executeTransaction env.fails qs s1.storage with
    | (st1, true) =>
        ({ s1 with storage := st1, mempoolTruncated := true, bestBlock := ⟨h, b.id⟩ },
         { info with isImport := true, committed := true, queries := qs,
                     outcome := .continued })
    | (st1, false) =>
        ({ s1 with storage := st1, mempoolTruncated := true },
         { info with isImport := true, committed := false, queries := qs,
                     outcome := .failed })

/-- The `setImmediate` loop of `catchUp`, with fuel: steps run until an
outcome other than `continued`; the terminal step is kept in the trace. -/
def catchUpTrace (envs : Nat → CatchUpEnv) (s : IState) : Nat → List StepInfo × IState
  | 0 => ([], s)
  | Nat.succ n =>
      let r := catchUpOnce (envs 0) s
      match r.2.outcome with
      | .continued =>
          let t := catchUpTrace (fun k => envs (k + 1)) r.1 n
          (r.2 :: t.1, t.2)
      | _ => ([r.2], r.1)

/-- How the promise returned by `catchUp()` settles. -/
inductive CycleResult
  | ok
  | error
  | fuelOut
deriving DecidableEq

/-- The settlement of a catch-up run, read off its trace: the terminal step
resolves (`SyncComplete`) or rejects; a run still `continued` when the fuel
ran out is `fuelOut`. -/
def catchUpResult (t : List StepInfo) : CycleResult :=
  match t.getLast? with
  | some info =>
      match info.outcome with
      | .completed => .ok
      | .failed => .error
      | .continued => .fuelOut
  | none => .fuelOut

/-- The environment of one `mainLoop` cycle: the refreshed remote tip and the
per-step environments of a catch-up run started by this cycle. -/
structure MainEnv where
  remote : ChainTip
  steps : Nat → CatchUpEnv

/-- One execution of `once()` inside `Indexer.prototype.mainLoop`: refresh
the remote tip; on blockid mismatch run `catchUp()` (which initializes a
fresh `mempoolTruncated = false`), otherwise `updateMempool()` (a resolved
no-op).  The final `Bool` records whether a next cycle is scheduled: the
`.finally` handler arms `setTimeout(once, ...)` on every settlement, so it is
`true` on every path, including rejection. -/
def mainLoopOnce (env : MainEnv) (fuel : Nat) (s : IState) : IState × CycleResult × Bool :=
  let s1 : IState := { s with bitcoindBestBlock := env.remote }
  if s1.bestBlock.blockid = env.remote.blockid then
    (s1, .ok, true)
  else
    let r := catchUpTrace env.steps { s1 with mempoolTruncated := false } fuel
    (r.2, catchUpResult r.1, true)

/-! ## Basic lemmas about query execution -/

theorem filter_idem {α : Type} (p : α → Bool) (l : List α) :
    (l.filter p).filter p = l.filter p := by
  induction l with
  | nil => rfl
  | cons a t ih =>
      by_cases h : p a <;> simp [List.filter_cons, h, ih]

theorem runQueries_append (f : Query → Bool) (l1 l2 : List Query) (st : Storage) :
    runQueries f (l1 ++ l2) st =
      match runQueries f l1 st with
      | none => none
      | some st1 => runQueries f l2 st1 := by
  induction l1 generalizing st with
  | nil => rfl
  | cons q qs ih =>
      simp only [List.cons_append, runQueries]
      by_cases h : f q
      · simp [h]
      · simp only [h, if_false, Bool.false_eq_true]
        cases applyQuery q st with
        | none => rfl
        | some st1 => exact ih st1

/-- The state produced by a committed rollback transaction. -/
def rollbackApplied (H : Nat) (st : Storage) : Storage :=
  { st with
    blocks := st.blocks.filter (fun r => !(sqlHeightGE (some r.height) H)),
    transactions := st.transactions.filter (fun r => !(sqlHeightGE r.height H)),
    history := st.history.filter (fun r => !(sqlHeightGE r.height H)) }

theorem runQueries_rollback (f : Query → Bool) (H : Nat) (st : Storage) :
    runQueries f (rollbackQueries H) st =
      if f ⟨.deleteBlocksFrom, [.vNum H]⟩ = true ∨ f ⟨.deleteTransactionsFrom, [.vNum H]⟩ = true
          ∨ f ⟨.deleteHistoryFrom, [.vNum H]⟩ = true
      then none
      else some (rollbackApplied H st) := by
  by_cases h1 : f ⟨.deleteBlocksFrom, [.vNum H]⟩ = true <;>
    by_cases h2 : f ⟨.deleteTransactionsFrom, [.vNum H]⟩ = true <;>
      by_cases h3 : f ⟨.deleteHistoryFrom, [.vNum H]⟩ = true <;>
        simp [rollbackQueries, runQueries, applyQuery, h1, h2, h3, rollbackApplied]

theorem rollbackApplied_idem (H : Nat) (st : Storage) :
    rollbackApplied H (rollbackApplied H st) = rollbackApplied H st := by
  simp [rollbackApplied, filter_idem]

/-! ## Claim C4 -/

/-- Claim C4: the rollback transaction deletes exactly the `blocks`,
`transactions` and `history` rows whose height is `≥ H` (a NULL height never
compares `≥ H`), and every other row is still present afterwards. -/
theorem rollback_deletes_exactly (H : Nat) (st : Storage) :
    (∀ r : BlockRow,
        r ∈ ((executeTransaction (fun _ => false) (rollbackQueries H) st).1).blocks ↔
          r ∈ st.blocks ∧ r.height < H)
    ∧ (∀ r : TxRow,
        r ∈ ((executeTransaction (fun _ => false) (rollbackQueries H) st).1).transactions ↔
          r ∈ st.transactions ∧ sqlHeightGE r.height H = false)
    ∧ (∀ r : HistoryRow,
        r ∈ ((executeTransaction (fun _ => false) (rollbackQueries H) st).1).history ↔
          r ∈ st.history ∧ sqlHeightGE r.height H = false) := by
  have hrun :
      (executeTransaction (fun _ => false) (rollbackQueries H) st).1 = rollbackApplied H st := by
    simp [executeTransaction, runQueries_rollback]
  refine ⟨fun r => ?_, fun r => ?_, fun r => ?_⟩ <;>
    rw [hrun] <;>
      simp [rollbackApplied, List.mem_filter, sqlHeightGE, Nat.lt_iff_add_one_le, Nat.not_le]

/-- Claim C4 witness at a concrete table state. -/
def c4Row : BlockRow := ⟨3, [3], [], []⟩

def c4Storage : Storage :=
  { emptyStorage with
    blocks := [⟨3, [3], [], []⟩, ⟨7, [7], [], []⟩],
    transactions := [⟨[1], [1], some 7⟩, ⟨[2], [2], none⟩] }

theorem rollback_deletes_exactly_witness :
    c4Row ∈ ((executeTransaction (fun _ => false) (rollbackQueries 5) c4Storage).1).blocks ↔
      c4Row ∈ c4Storage.blocks ∧ c4Row.height < 5 :=
  (rollback_deletes_exactly 5 c4Storage).1 c4Row

/-! ## Claim C9 -/

/-- Claim C9: the storage effect of the reorg branch's rollback is
idempotent — applying it twice leaves the same stored state as once (both
when the transaction commits, where it filters the confirmed tables and
leaves the mempool tables alone, and when it aborts, where storage is
unchanged). -/
theorem rollback_idempotent (f : Query → Bool) (flag : Bool) (H : Nat) (st : Storage) :
    (reorgStorageEffect f flag H (reorgStorageEffect f flag H st).1).1 =
      (reorgStorageEffect f flag H st).1 := by
  cases flag with
  | false => simp [reorgStorageEffect]
  | true =>
      simp only [reorgStorageEffect, if_true, executeTransaction, runQueries_rollback]
      by_cases hf : f ⟨.deleteBlocksFrom, [.vNum H]⟩ = true
          ∨ f ⟨.deleteTransactionsFrom, [.vNum H]⟩ = true
          ∨ f ⟨.deleteHistoryFrom, [.vNum H]⟩ = true
      · simp [hf]
      · simp [hf, rollbackApplied_idem]

theorem rollback_idempotent_witness :
    (reorgStorageEffect (fun _ => false) true 5
        (reorgStorageEffect (fun _ => false) true 5 c4Storage).1).1 =
      (reorgStorageEffect (fun _ => false) true 5 c4Storage).1 :=
  rollback_idempotent (fun _ => false) true 5 c4Storage

/-! ## Claim C3 -/

def msScript : Script := ⟨[⟨[1]⟩, ⟨[2]⟩, ⟨[3]⟩, ⟨[4]⟩, ⟨[5]⟩], .multisig⟩

def dummyAddr : Addr := ⟨[], .payToScriptHash⟩

/-- Claim C3 counterexample: for a multisig script with signer chunks `[2]`
and `[3]` (between the leading chunk `[1]` and the trailing two chunks), the
claim predicts that the second returned address is derived from the second
signer's own chunk `[3]`; instantiating the external hash function with the
identity, the extractor instead returns an address derived from the leading
chunk `[1]` — the source hashes `script.chunks[0].buf` in every iteration. -/
theorem multisig_address_derivation_cex :
    (extractAddresses (fun l => l) msScript).getD 1 dummyAddr ≠
      ⟨(((msScript.chunks.drop 1).dropLast.dropLast).getD 1 emptyChunk).buf,
        .payToPublicKeyHash⟩ := by
  decide

/-- Claim C3 (amended): for a multisig output script the extractor returns
one address per signer public-key chunk (the chunks strictly between the
leading chunk and the trailing two), but every returned address is derived by
hashing the leading chunk `chunks[0]` (the required-signatures chunk), not
the signer's own chunk — so all returned addresses are identical. -/
theorem multisig_addresses_hash_first_chunk (hash160 : List Nat → List Nat) (s : Script)
    (h : s.cls = ScriptClass.multisig) :
    (extractAddresses hash160 s).length = ((s.chunks.drop 1).dropLast.dropLast).length
    ∧ ∀ a ∈ extractAddresses hash160 s,
        a = ⟨hash160 (s.chunks.getD 0 emptyChunk).buf, AddrType.payToPublicKeyHash⟩ := by
  constructor
  · simp [extractAddresses, h]
  · intro a ha
    simp only [extractAddresses, h, List.mem_map] at ha
    obtain ⟨c, _, rfl⟩ := ha
    rfl

theorem multisig_addresses_hash_first_chunk_witness :
    (extractAddresses (fun l => l) msScript).length =
        ((msScript.chunks.drop 1).dropLast.dropLast).length
    ∧ ∀ a ∈ extractAddresses (fun l => l) msScript,
        a = ⟨(fun l : List Nat => l) (msScript.chunks.getD 0 emptyChunk).buf,
              AddrType.payToPublicKeyHash⟩ :=
  multisig_addresses_hash_first_chunk (fun l => l) msScript rfl

/-! ## Claim C7 -/

theorem saveTx_mem (hash160 : List Nat → List Nat) (txs : List Tx) (tx : Tx)
    (ht : Option Nat) (h : tx ∈ txs) :
    saveTxQuery ht tx ∈ storeTransactionsQueries hash160 txs ht := by
  unfold storeTransactionsQueries
  rw [List.mem_flatten]
  exact ⟨_, List.mem_map_of_mem _ h, List.mem_cons_self _ _⟩

def p2pkhScript : Script := ⟨[⟨[118]⟩, ⟨[169]⟩, ⟨[9, 9, 9]⟩, ⟨[136]⟩, ⟨[172]⟩], .pubkeyhash⟩

def nonstdScript : Script := ⟨[], .other⟩

/-- Claim C7: a pay-to-public-key-hash script yields exactly one address —
built from the designated hash chunk `chunks[2]` and tagged
pay-to-public-key-hash; an empty or nonstandard script yields zero addresses,
the containing transaction still gets its `saveTx` row, and the output
contributes no `storeOut` (history) queries at all. -/
theorem extract_p2pkh_and_nonstandard (hash160 : List Nat → List Nat) (s s1 : Script)
    (hp : s.cls = ScriptClass.pubkeyhash) (ho : s1.cls = ScriptClass.other) :
    extractAddresses hash160 s =
        [⟨(s.chunks.getD 2 emptyChunk).buf, AddrType.payToPublicKeyHash⟩]
    ∧ extractAddresses hash160 s1 = []
    ∧ (∀ (txs : List Tx) (tx : Tx) (ht : Option Nat), tx ∈ txs →
        saveTxQuery ht tx ∈ storeTransactionsQueries hash160 txs ht)
    ∧ (∀ (sqlv : Sql) (ps : List Val),
        addrInsertQueries sqlv ps (extractAddresses hash160 s1) = []) := by
  refine ⟨by simp [extractAddresses, hp], by simp [extractAddresses, ho], ?_, ?_⟩
  · exact fun txs tx ht h => saveTx_mem hash160 txs tx ht h
  · intro sqlv ps
    simp [extractAddresses, ho, addrInsertQueries]

theorem extract_p2pkh_and_nonstandard_witness :
    extractAddresses (fun l => l) p2pkhScript =
        [⟨(p2pkhScript.chunks.getD 2 emptyChunk).buf, AddrType.payToPublicKeyHash⟩]
    ∧ extractAddresses (fun l => l) nonstdScript = []
    ∧ (∀ (txs : List Tx) (tx : Tx) (ht : Option Nat), tx ∈ txs →
        saveTxQuery ht tx ∈ storeTransactionsQueries (fun l => l) txs ht)
    ∧ (∀ (sqlv : Sql) (ps : List Val),
        addrInsertQueries sqlv ps (extractAddresses (fun l => l) nonstdScript) = []) :=
  extract_p2pkh_and_nonstandard (fun l => l) p2pkhScript nonstdScript rfl rfl

/-! ## Claim C1 -/

/-- Claim C1 (refuting theorem): whenever a cycle takes the reorg branch
(no `SyncComplete`, and the effective remote height is not above the local
tip), the resulting storage has both mempool tables exactly as before — a
rollback never clears them.  If no mempool truncation has happened yet in
this run, the branch moreover rejects the run: `tryTruncateMempool()` is
invoked without the `client` argument, so the truncation dereferences an
undefined client and the whole rollback transaction aborts. -/
theorem reorg_never_clears_mempool (env : CatchUpEnv) (s : IState)
    (hnc : ¬ (requeryFlag s = true ∧ s.bestBlock.blockid = (effectiveRemote env s).blockid))
    (hre : (effectiveRemote env s).height ≤ s.bestBlock.height) :
    ((catchUpOnce env s).1.storage.transactions_mempool = s.storage.transactions_mempool)
    ∧ ((catchUpOnce env s).1.storage.history_mempool = s.storage.history_mempool)
    ∧ (s.mempoolTruncated = false → (catchUpOnce env s).2.outcome = Outcome.failed) := by
  have hcu :
      catchUpOnce env s =
        match reorgStorageEffect env.fails s.mempoolTruncated (effectiveRemote env s).height
            s.storage with
        | (st1, true) =>
            ({ s with bitcoindBestBlock := effectiveRemote env s, storage := st1,
                      bestBlock := getBestBlock st1 },
             { requeried := requeryFlag s, localHeight := s.bestBlock.height,
               remoteHeight := s.bitcoindBestBlock.height, isImport := false,
               committed := true, queries := rollbackQueries (effectiveRemote env s).height,
               outcome := .continued })
        | (st1, false) =>
            ({ s with bitcoindBestBlock := effectiveRemote env s, storage := st1,
                      mempoolTruncated := true },
             { requeried := requeryFlag s, localHeight := s.bestBlock.height,
               remoteHeight := s.bitcoindBestBlock.height, isImport := false,
               committed := false, queries := rollbackQueries (effectiveRemote env s).height,
               outcome := .failed }) := by
    unfold catchUpOnce
    rw [if_neg hnc, if_pos hre]
  cases hm : s.mempoolTruncated with
  | false =>
      rw [hcu]
      simp [reorgStorageEffect, hm]
  | true =>
      rw [hcu]
      simp only [reorgStorageEffect, hm, if_true, executeTransaction, runQueries_rollback]
      by_cases hf : env.fails ⟨.deleteBlocksFrom, [.vNum (effectiveRemote env s).height]⟩ = true
          ∨ env.fails ⟨.deleteTransactionsFrom, [.vNum (effectiveRemote env s).height]⟩ = true
          ∨ env.fails ⟨.deleteHistoryFrom, [.vNum (effectiveRemote env s).height]⟩ = true
      · simp [hf]
      · simp [hf, rollbackApplied]

def c1Env : CatchUpEnv :=
  ⟨⟨5, [2]⟩, fun h => ⟨[h], [], []⟩, fun _ => false, fun l => l⟩

def c1State : IState :=
  { bestBlock := ⟨5, [1]⟩, bitcoindBestBlock := ⟨5, [2]⟩, mempoolTruncated := false,
    storage := { emptyStorage with
                   transactions_mempool := [⟨[9], [9]⟩],
                   history_mempool := [⟨⟨[], .payToScriptHash⟩, [9], 0, 1⟩] } }

/-- Claim C1, evaluated at the failing input: a same-height fork (local tip
(5,[1]), remote tip (5,[2])) with a still-nonempty mempool and no truncation
yet in this run.  The rollback leaves both mempool tables untouched and the
run rejects. -/
theorem reorg_never_clears_mempool_witness :
    ((catchUpOnce c1Env c1State).1.storage.transactions_mempool =
        c1State.storage.transactions_mempool)
    ∧ ((catchUpOnce c1Env c1State).1.storage.history_mempool =
        c1State.storage.history_mempool)
    ∧ (catchUpOnce c1Env c1State).2.outcome = Outcome.failed := by
  have h := reorg_never_clears_mempool c1Env c1State (by decide) (by decide)
  exact ⟨h.1, h.2.1, h.2.2 rfl⟩

/-! ## Claim C8 -/

theorem catchUpOnce_requeried_eq (env : CatchUpEnv) (s : IState) :
    (catchUpOnce env s).2.requeried = requeryFlag s := by
  simp only [catchUpOnce]
  split
  · rfl
  · split
    · split <;> rfl
    · split <;> rfl

def scenarioEnv : CatchUpEnv :=
  ⟨⟨250, [250]⟩, fun h => ⟨[h], [], []⟩, fun _ => false, fun l => l⟩

def scenarioInit : IState := ⟨⟨100, [100]⟩, ⟨250, [250]⟩, false, emptyStorage⟩

def dummyStep : StepInfo := ⟨false, 0, 0, false, false, [], .continued⟩

def scenarioTrace : List StepInfo :=
  (catchUpTrace (fun _ => scenarioEnv) scenarioInit 160).1

set_option maxRecDepth 40000 in
/-- Claim C8 counterexample: in scenario B (local tip (100,A), cached remote
tip (250,Z)), step 50 of the catch-up run re-queries the remote tip while its
local tip is 150 and the height gap is exactly 100 — so the engine does
re-query before the gap has dropped below 100, contrary to the claim. -/
theorem scenarioB_requery_gap_cex :
    (scenarioTrace.getD 50 dummyStep).requeried = true
    ∧ (scenarioTrace.getD 50 dummyStep).localHeight = 150
    ∧ (scenarioTrace.getD 50 dummyStep).remoteHeight = 250
    ∧ ¬ ((scenarioTrace.getD 50 dummyStep).remoteHeight -
          (scenarioTrace.getD 50 dummyStep).localHeight < 100) := by
  decide

set_option maxRecDepth 40000 in
/-- Claim C8 (amended): a cycle re-queries the remote tip exactly when
`local.height + 100 < remote.height` is false; consequently in scenario B
(local tip (100,A), cached remote tip (250,Z)) the engine imports heights
101..150 without re-querying, first re-queries when its local tip reaches
150 — the height gap then being exactly 100, not yet below it — and then
keeps importing the remaining heights up to 250 with a re-query on every
cycle, completing at the remote tip. -/
theorem requery_condition_and_scenarioB :
    (∀ (env : CatchUpEnv) (s : IState),
        (catchUpOnce env s).2.requeried = true ↔
          ¬ (s.bestBlock.height + 100 < s.bitcoindBestBlock.height))
    ∧ ((scenarioTrace.take 50).map (fun st => (st.requeried, st.isImport, st.localHeight)) =
        (List.range 50).map (fun i => (false, true, 100 + i)))
    ∧ (scenarioTrace.getD 50 dummyStep).requeried = true
    ∧ (scenarioTrace.getD 50 dummyStep).localHeight = 150
    ∧ ((scenarioTrace.drop 50).take 100).all (fun st => st.requeried && st.isImport) = true
    ∧ scenarioTrace.length = 151
    ∧ (scenarioTrace.getD 150 dummyStep).outcome = Outcome.completed := by
  refine ⟨fun env s => ?_, by decide⟩
  rw [catchUpOnce_requeried_eq]
  simp [requeryFlag]

/-! ## Claim C2 -/

theorem getLast?_cons_of_ne_nil {α : Type} (a : α) {l : List α} (h : l ≠ []) :
    (a :: l).getLast? = l.getLast? := by
  cases l with
  | nil => exact absurd rfl h
  | cons b t => simp [List.getLast?_cons_cons]

theorem catchUpTrace_failed_result (envs : Nat → CatchUpEnv) (s : IState) (n : Nat) :
    ∀ st ∈ (catchUpTrace envs s n).1, st.outcome = Outcome.failed →
      catchUpResult (catchUpTrace envs s n).1 = CycleResult.error := by
  induction n generalizing envs s with
  | zero =>
      intro st h
      simp [catchUpTrace] at h
  | succ n ih =>
      intro st hmem hfail
      cases ho : (catchUpOnce (envs 0) s).2.outcome with
      | continued =>
          simp only [catchUpTrace, ho, List.mem_cons] at hmem ⊢
          rcases hmem with rfl | hmem
          · rw [ho] at hfail
            exact Outcome.noConfusion hfail
          · have hne : (catchUpTrace (fun k => envs (k + 1)) (catchUpOnce (envs 0) s).1 n).1 ≠ [] :=
              List.ne_nil_of_mem hmem
            unfold catchUpResult
            rw [getLast?_cons_of_ne_nil _ hne]
            exact ih (fun k => envs (k + 1)) (catchUpOnce (envs 0) s).1 st hmem hfail
      | completed =>
          simp only [catchUpTrace, ho] at hmem
          simp only [List.mem_singleton] at hmem
          rw [hmem] at hfail
          rw [ho] at hfail
          exact Outcome.noConfusion hfail
      | failed =>
          simp only [catchUpTrace, ho] at hmem ⊢
          simp [catchUpResult, List.getLast?, ho]

/-- Claim C2 (amended): an error other than the `SyncComplete` / `ReorgFound`
signals terminates the catch-up run and makes its promise reject (the trace
ends at the failing step and the run's result is the error), but the main
loop does not halt: `mainLoop`'s `.finally` handler arms the next
`setTimeout(once, ...)` on every settlement, so a further cycle is scheduled
even after such an error. -/
theorem mainLoop_continues_after_error :
    (∀ (envs : Nat → CatchUpEnv) (s : IState) (n : Nat) (st : StepInfo),
        st ∈ (catchUpTrace envs s n).1 → st.outcome = Outcome.failed →
          catchUpResult (catchUpTrace envs s n).1 = CycleResult.error)
    ∧ (∀ (env : MainEnv) (fuel : Nat) (s : IState),
        (mainLoopOnce env fuel s).2.2 = true) := by
  constructor
  · exact fun envs s n st h1 h2 => catchUpTrace_failed_result envs s n st h1 h2
  · intro env fuel s
    simp only [mainLoopOnce]
    split <;> rfl

def c2CatchEnv : CatchUpEnv :=
  ⟨⟨6, [2]⟩, fun h => ⟨[h], [], []⟩, fun q => decide (q.sql = Sql.insertBlocks), fun l => l⟩

def c2MainEnv : MainEnv := ⟨⟨6, [2]⟩, fun _ => c2CatchEnv⟩

def c2State : IState := ⟨⟨5, [1]⟩, ⟨5, [1]⟩, false, emptyStorage⟩

/-- Claim C2 counterexample: a mainLoop cycle whose catch-up run hits a
storage error on the block insert (a fatal error, not `SyncComplete` or
`ReorgFound`).  The cycle's result is the propagated error, yet a further
cycle is still scheduled — mainLoop does not halt. -/
theorem mainLoop_reschedules_after_error_cex :
    (mainLoopOnce c2MainEnv 3 c2State).2.1 = CycleResult.error
    ∧ (mainLoopOnce c2MainEnv 3 c2State).2.2 = true := by
  decide

def c2EnteredState : IState := ⟨⟨5, [1]⟩, ⟨6, [2]⟩, false, emptyStorage⟩

theorem mainLoop_continues_after_error_witness :
    catchUpResult (catchUpTrace (fun _ => c2CatchEnv) c2EnteredState 3).1 = CycleResult.error
    ∧ (mainLoopOnce c2MainEnv 3 c2State).2.2 = true := by
  refine ⟨mainLoop_continues_after_error.1 (fun _ => c2CatchEnv) c2EnteredState 3
      ((catchUpTrace (fun _ => c2CatchEnv) c2EnteredState 3).1.getD 0 dummyStep) ?_ ?_,
    mainLoop_continues_after_error.2 c2MainEnv 3 c2State⟩
  · decide
  · decide

/-! ## Query-kind lemmas -/

/-- The statement kinds `storeTransactions` can issue. -/
def isStoreSql (q : Query) : Bool :=
  match q.sql with
  | .insertTransactions | .insertTransactionsMempool | .insertHistory5 | .insertHistory4 => true
  | _ => false

def isTruncQ (q : Query) : Bool := decide (q.sql = Sql.truncateMempoolTables)

/-- Number of mempool truncation statements in a query list. -/
def truncCount (qs : List Query) : Nat := (qs.filter isTruncQ).length

theorem addrInsertQueries_sql (sqlv : Sql) :
    ∀ (as : List Addr) (ps : List Val) (q : Query),
      q ∈ addrInsertQueries sqlv ps as → q.sql = sqlv := by
  intro as
  induction as with
  | nil => intro ps q h; simp [addrInsertQueries] at h
  | cons a rest ih =>
      intro ps q h
      rcases List.mem_cons.mp h with rfl | h
      · rfl
      · exact ih _ q h

theorem storeTransactionsQueries_kinds (hash160 : List Nat → List Nat) (txs : List Tx)
    (ht : Option Nat) :
    ∀ q ∈ storeTransactionsQueries hash160 txs ht, isStoreSql q = true := by
  intro q hq
  unfold storeTransactionsQueries at hq
  rw [List.mem_flatten] at hq
  obtain ⟨l, hl, hql⟩ := hq
  rw [List.mem_map] at hl
  obtain ⟨tx, _, rfl⟩ := hl
  rcases List.mem_cons.mp hql with rfl | hql
  · cases ht <;> rfl
  · rw [show saveInputsQueries tx = [] from rfl, List.nil_append] at hql
    unfold saveOutputsQueries at hql
    rw [List.mem_flatten] at hql
    obtain ⟨l2, hl2, hql2⟩ := hql
    rw [List.mem_map] at hl2
    obtain ⟨p, _, rfl⟩ := hl2
    have hsql := addrInsertQueries_sql (storeOutSql ht) _ _ q hql2
    cases ht <;> (simp [storeOutSql] at hsql; simp [isStoreSql, hsql])

theorem isStoreSql_not_trunc (q : Query) (h : isStoreSql q = true) : isTruncQ q = false := by
  cases hsql : q.sql <;> first
    | (simp [isTruncQ, hsql]; done)
    | simp [isStoreSql, hsql] at h

theorem truncCount_store (hash160 : List Nat → List Nat) (txs : List Tx) (ht : Option Nat) :
    truncCount (storeTransactionsQueries hash160 txs ht) = 0 := by
  unfold truncCount
  rw [List.length_eq_zero, List.filter_eq_nil_iff]
  intro q hq
  have h := isStoreSql_not_trunc q (storeTransactionsQueries_kinds hash160 txs ht q hq)
  simp [h]

theorem truncCount_import_true (hash160 : List Nat → List Nat) (h : Nat) (b : Block) :
    truncCount (importBlockQueries hash160 true h b) = 0 := by
  have hs := truncCount_store hash160 b.transactions (some h)
  simp only [importBlockQueries, tryTruncateQueries, if_true, List.nil_append]
  simp only [truncCount, List.filter_cons] at hs ⊢
  simpa [isTruncQ, blockInsertQuery] using hs

theorem truncCount_rollback (H : Nat) : truncCount (rollbackQueries H) = 0 := by
  simp [truncCount, rollbackQueries, List.filter_cons, isTruncQ]

/-! ## Claim C6: step-level lemmas -/

theorem catchUpOnce_flag_mono (env : CatchUpEnv) (s : IState) (h : s.mempoolTruncated = true) :
    (catchUpOnce env s).1.mempoolTruncated = true := by
  simp only [catchUpOnce]
  split
  · exact h
  · split
    · split <;> first | exact h | rfl
    · split <;> first | exact h | rfl

theorem catchUpOnce_queries_noTrunc (env : CatchUpEnv) (s : IState)
    (h : s.mempoolTruncated = true) :
    truncCount (catchUpOnce env s).2.queries = 0 := by
  simp only [catchUpOnce]
  split
  · rfl
  · split
    · split <;> exact truncCount_rollback _
    · rw [show ({ s with bitcoindBestBlock := effectiveRemote env s } : IState).mempoolTruncated
            = true from h]
      split <;> exact truncCount_import_true _ _ _

theorem catchUpOnce_false_cases (env : CatchUpEnv) (s : IState)
    (h : s.mempoolTruncated = false) :
    ((catchUpOnce env s).2.outcome = Outcome.continued → (catchUpOnce env s).2.isImport = true)
    ∧ ((catchUpOnce env s).2.isImport = true →
        (∃ hh b qs2, (catchUpOnce env s).2.queries =
            (⟨Sql.truncateMempoolTables, []⟩ : Query) :: blockInsertQuery hh b :: qs2
          ∧ truncCount qs2 = 0)
        ∧ (catchUpOnce env s).1.mempoolTruncated = true) := by
  simp only [catchUpOnce]
  split
  · exact ⟨fun hc => Outcome.noConfusion hc, fun hi => Bool.noConfusion hi⟩
  · split
    · rw [show ({ s with bitcoindBestBlock := effectiveRemote env s } : IState).mempoolTruncated
            = false from h]
      simp only [reorgStorageEffect, if_false, Bool.false_eq_true]
      exact ⟨fun hc => Outcome.noConfusion hc, fun hi => hi.elim⟩
    · rw [show ({ s with bitcoindBestBlock := effectiveRemote env s } : IState).mempoolTruncated
            = false from h]
      split
      · exact ⟨fun _ => rfl,
          fun _ => ⟨⟨_, _, _, rfl, truncCount_store _ _ _⟩, rfl⟩⟩
      · exact ⟨fun hc => Outcome.noConfusion hc,
          fun _ => ⟨⟨_, _, _, rfl, truncCount_store _ _ _⟩, rfl⟩⟩

theorem catchUpOnce_completed_notImport (env : CatchUpEnv) (s : IState) :
    (catchUpOnce env s).2.outcome = Outcome.completed →
    (catchUpOnce env s).2.isImport = false := by
  simp only [catchUpOnce]
  split
  · intro _; rfl
  · split
    · split <;> (intro hc; exact Outcome.noConfusion hc)
    · split <;> (intro hc; exact Outcome.noConfusion hc)

theorem catchUpTrace_noTrunc (n : Nat) :
    ∀ (envs : Nat → CatchUpEnv) (s : IState), s.mempoolTruncated = true →
      ∀ st ∈ (catchUpTrace envs s n).1, truncCount st.queries = 0 := by
  induction n with
  | zero =>
      intro envs s _ st hst
      simp [catchUpTrace] at hst
  | succ n ih =>
      intro envs s h st hst
      cases ho : (catchUpOnce (envs 0) s).2.outcome with
      | continued =>
          simp only [catchUpTrace, ho, List.mem_cons] at hst
          rcases hst with rfl | hst
          · exact catchUpOnce_queries_noTrunc (envs 0) s h
          · exact ih _ _ (catchUpOnce_flag_mono (envs 0) s h) st hst
      | completed =>
          simp only [catchUpTrace, ho, List.mem_singleton] at hst
          subst hst
          exact catchUpOnce_queries_noTrunc (envs 0) s h
      | failed =>
          simp only [catchUpTrace, ho, List.mem_singleton] at hst
          subst hst
          exact catchUpOnce_queries_noTrunc (envs 0) s h

/-- Claim C6: in a catch-up run (which starts with `mempoolTruncated =
false`), take the first import step `f` of the trace (`pre` holds only
non-import steps).  Then `f`'s transaction issues the mempool truncation
exactly once, as its first query, before the block-row insert (its second
query), and with no further truncation afterwards; and every step after `f`
— in particular every later block import of the run — issues no mempool
truncation at all. -/
theorem catchUp_truncates_mempool_once (envs : Nat → CatchUpEnv) (s : IState) (n : Nat)
    (hflag : s.mempoolTruncated = false)
    (f : StepInfo) (pre post : List StepInfo)
    (hdec : (catchUpTrace envs s n).1 = pre ++ f :: post)
    (hfi : f.isImport = true)
    (hpre : ∀ st ∈ pre, st.isImport = false) :
    (∃ hh b qs2, f.queries =
        (⟨Sql.truncateMempoolTables, []⟩ : Query) :: blockInsertQuery hh b :: qs2
      ∧ truncCount qs2 = 0)
    ∧ ∀ st ∈ post, truncCount st.queries = 0 := by
  cases n with
  | zero =>
      simp only [catchUpTrace] at hdec
      cases pre <;> simp at hdec
  | succ n =>
      cases ho : (catchUpOnce (envs 0) s).2.outcome with
      | continued =>
          have himp : (catchUpOnce (envs 0) s).2.isImport = true :=
            (catchUpOnce_false_cases (envs 0) s hflag).1 ho
          simp only [catchUpTrace, ho] at hdec
          cases pre with
          | nil =>
              simp only [List.nil_append] at hdec
              obtain ⟨hf, hpost⟩ := List.cons.inj hdec
              subst hf
              subst hpost
              refine ⟨((catchUpOnce_false_cases (envs 0) s hflag).2 himp).1, ?_⟩
              intro st hst
              exact catchUpTrace_noTrunc n _ _
                ((catchUpOnce_false_cases (envs 0) s hflag).2 himp).2 st hst
          | cons p pre1 =>
              obtain ⟨hp, _⟩ := List.cons.inj hdec
              have hnp := hpre p (List.mem_cons_self p pre1)
              rw [hp] at himp
              rw [himp] at hnp
              exact Bool.noConfusion hnp
      | completed =>
          simp only [catchUpTrace, ho] at hdec
          cases pre with
          | nil =>
              simp only [List.nil_append] at hdec
              obtain ⟨hf, hpost⟩ := List.cons.inj hdec
              subst hf
              have hni := catchUpOnce_completed_notImport (envs 0) s ho
              rw [hfi] at hni
              exact Bool.noConfusion hni
          | cons p pre1 =>
              obtain ⟨_, htail⟩ := List.cons.inj hdec
              cases pre1 <;> simp at htail
      | failed =>
          simp only [catchUpTrace, ho] at hdec
          cases pre with
          | nil =>
              simp only [List.nil_append] at hdec
              obtain ⟨hf, hpost⟩ := List.cons.inj hdec
              subst hf
              subst hpost
              refine ⟨((catchUpOnce_false_cases (envs 0) s hflag).2 hfi).1, ?_⟩
              intro st hst
              simp at hst
          | cons p pre1 =>
              obtain ⟨_, htail⟩ := List.cons.inj hdec
              cases pre1 <;> simp at htail

def c6Env : CatchUpEnv :=
  ⟨⟨2, [12]⟩, fun h => ⟨[h + 10], [], []⟩, fun _ => false, fun l => l⟩

def c6Init : IState := ⟨⟨0, [0]⟩, ⟨2, [12]⟩, false, emptyStorage⟩

def c6Trace : List StepInfo := (catchUpTrace (fun _ => c6Env) c6Init 5).1

/-- Claim C6 witness: a concrete two-block catch-up run.  Its first import
step truncates the mempool as the first query of its transaction, before the
block insert, and no later step issues a truncation. -/
theorem catchUp_truncates_mempool_once_witness :
    (∃ hh b qs2, (c6Trace.getD 0 dummyStep).queries =
        (⟨Sql.truncateMempoolTables, []⟩ : Query) :: blockInsertQuery hh b :: qs2
      ∧ truncCount qs2 = 0)
    ∧ ∀ st ∈ c6Trace.drop 1, truncCount st.queries = 0 :=
  catchUp_truncates_mempool_once (fun _ => c6Env) c6Init 5 rfl
    (c6Trace.getD 0 dummyStep) [] (c6Trace.drop 1) (by decide) (by decide)
    (fun st hst => absurd hst (List.not_mem_nil st))

/-! ## Claim C5: atomicity of block import -/

theorem runQueries_cons_ok (f : Query → Bool) (q : Query) (qs : List Query) (t t2 : Storage)
    (hf : ¬ f q = true) (ha : applyQuery q t = some t2) :
    runQueries f (q :: qs) t = runQueries f qs t2 := by
  simp [runQueries, hf, ha]

theorem addr_run_rows (f : Query → Bool) (tid : List Nat) (i v hh : Nat) :
    ∀ (addrs : List Addr) (t t1 : Storage),
      runQueries f (addrInsertQueries .insertHistory5
          [.vStr tid, .vNum i, .vNum v, .vNum hh] addrs) t = some t1 →
      t1.blocks = t.blocks
      ∧ t1.transactions = t.transactions
      ∧ t1.transactions_mempool = t.transactions_mempool
      ∧ t1.history_mempool = t.history_mempool
      ∧ (∀ r ∈ t.history, r ∈ t1.history)
      ∧ ∀ a ∈ addrs, (⟨a, tid, i, v, some hh⟩ : HistoryRow) ∈ t1.history := by
  intro addrs t t1 h
  match addrs with
  | [] =>
      simp only [addrInsertQueries, runQueries, Option.some.injEq] at h
      subst h
      exact ⟨rfl, rfl, rfl, rfl, fun r hr => hr, by simp⟩
  | [a] =>
      by_cases hf : f ⟨.insertHistory5, [.vAddr a, .vStr tid, .vNum i, .vNum v, .vNum hh]⟩
      · simp [addrInsertQueries, runQueries, hf] at h
      · rw [show addrInsertQueries Sql.insertHistory5
              [.vStr tid, .vNum i, .vNum v, .vNum hh] [a] =
            [⟨.insertHistory5, [.vAddr a, .vStr tid, .vNum i, .vNum v, .vNum hh]⟩] from rfl,
          runQueries_cons_ok f _ _ t
            { t with history := t.history ++ [⟨a, tid, i, v, some hh⟩] } hf rfl] at h
        simp only [runQueries, Option.some.injEq] at h
        subst h
        refine ⟨rfl, rfl, rfl, rfl, fun r hr => List.mem_append_left _ hr, ?_⟩
        intro x hx
        rw [List.mem_singleton] at hx
        subst hx
        exact List.mem_append_right _ (by simp)
  | a :: a2 :: rest =>
      exfalso
      by_cases hf1 : f ⟨.insertHistory5, [.vAddr a, .vStr tid, .vNum i, .vNum v, .vNum hh]⟩
      · simp [addrInsertQueries, runQueries, hf1] at h
      · rw [show addrInsertQueries Sql.insertHistory5
              [.vStr tid, .vNum i, .vNum v, .vNum hh] (a :: a2 :: rest) =
            ⟨.insertHistory5, [.vAddr a, .vStr tid, .vNum i, .vNum v, .vNum hh]⟩ ::
              addrInsertQueries Sql.insertHistory5
                [.vAddr a, .vStr tid, .vNum i, .vNum v, .vNum hh] (a2 :: rest) from rfl,
          runQueries_cons_ok f _ _ t
            { t with history := t.history ++ [⟨a, tid, i, v, some hh⟩] } hf1 rfl] at h
        by_cases hf2 : f ⟨.insertHistory5,
            [.vAddr a2, .vAddr a, .vStr tid, .vNum i, .vNum v, .vNum hh]⟩ <;>
          simp [addrInsertQueries, runQueries, applyQuery, hf1, hf2] at h

theorem outs_run (f : Query → Bool) (hash160 : List Nat → List Nat) (tid : List Nat)
    (hh : Nat) :
    ∀ (l : List (Nat × Output)) (t t1 : Storage),
      runQueries f ((l.map (fun p => addrInsertQueries .insertHistory5
          [.vStr tid, .vNum p.1, .vNum p.2.satoshis, .vNum hh]
          (extractAddresses hash160 p.2.script))).flatten) t = some t1 →
      t1.blocks = t.blocks
      ∧ t1.transactions = t.transactions
      ∧ t1.transactions_mempool = t.transactions_mempool
      ∧ t1.history_mempool = t.history_mempool
      ∧ (∀ r ∈ t.history, r ∈ t1.history)
      ∧ ∀ p ∈ l, ∀ a ∈ extractAddresses hash160 p.2.script,
          (⟨a, tid, p.1, p.2.satoshis, some hh⟩ : HistoryRow) ∈ t1.history := by
  intro l
  induction l with
  | nil =>
      intro t t1 h
      simp only [List.map_nil, List.flatten_nil, runQueries, Option.some.injEq] at h
      subst h
      exact ⟨rfl, rfl, rfl, rfl, fun r hr => hr, by simp⟩
  | cons p rest ih =>
      intro t t1 h
      rw [List.map_cons, List.flatten_cons, runQueries_append] at h
      cases hmid : runQueries f (addrInsertQueries .insertHistory5
          [.vStr tid, .vNum p.1, .vNum p.2.satoshis, .vNum hh]
          (extractAddresses hash160 p.2.script)) t with
      | none => rw [hmid] at h; exact Option.noConfusion h
      | some t2 =>
          rw [hmid] at h
          have h1 := addr_run_rows f tid p.1 p.2.satoshis hh
            (extractAddresses hash160 p.2.script) t t2 hmid
          have h2 := ih t2 t1 h
          refine ⟨by rw [h2.1, h1.1], by rw [h2.2.1, h1.2.1],
            by rw [h2.2.2.1, h1.2.2.1], by rw [h2.2.2.2.1, h1.2.2.2.1],
            fun r hr => h2.2.2.2.2.1 r (h1.2.2.2.2.1 r hr), ?_⟩
          intro p2 hp2 a ha
          rcases List.mem_cons.mp hp2 with rfl | hp2
          · exact h2.2.2.2.2.1 _ (h1.2.2.2.2.2 a ha)
          · exact h2.2.2.2.2.2 p2 hp2 a ha

theorem store_run (f : Query → Bool) (hash160 : List Nat → List Nat) (hh : Nat) :
    ∀ (txs : List Tx) (t t1 : Storage),
      runQueries f (storeTransactionsQueries hash160 txs (some hh)) t = some t1 →
      (∀ r ∈ t.blocks, r ∈ t1.blocks)
      ∧ (∀ r ∈ t.transactions, r ∈ t1.transactions)
      ∧ (∀ r ∈ t.history, r ∈ t1.history)
      ∧ (∀ tx ∈ txs, (⟨tx.id, tx.raw, some hh⟩ : TxRow) ∈ t1.transactions)
      ∧ (∀ tx ∈ txs, ∀ p ∈ tx.outputs.enum, ∀ a ∈ extractAddresses hash160 p.2.script,
          (⟨a, tx.id, p.1, p.2.satoshis, some hh⟩ : HistoryRow) ∈ t1.history) := by
  intro txs
  induction txs with
  | nil =>
      intro t t1 h
      simp only [storeTransactionsQueries, List.map_nil, List.flatten_nil, runQueries,
        Option.some.injEq] at h
      subst h
      exact ⟨fun r hr => hr, fun r hr => hr, fun r hr => hr, by simp, by simp⟩
  | cons tx rest ih =>
      intro t t1 h
      have hq : storeTransactionsQueries hash160 (tx :: rest) (some hh) =
          (saveTxQuery (some hh) tx :: saveOutputsQueries hash160 (some hh) tx)
            ++ storeTransactionsQueries hash160 rest (some hh) := by
        simp [storeTransactionsQueries, saveInputsQueries]
      rw [hq, runQueries_append] at h
      cases hmid : runQueries f
          (saveTxQuery (some hh) tx :: saveOutputsQueries hash160 (some hh) tx) t with
      | none => rw [hmid] at h; exact Option.noConfusion h
      | some t3 =>
          rw [hmid] at h
          by_cases hf : f (saveTxQuery (some hh) tx)
          · rw [show runQueries f
                (saveTxQuery (some hh) tx :: saveOutputsQueries hash160 (some hh) tx) t =
                none by simp [runQueries, hf]] at hmid
            exact Option.noConfusion hmid
          · rw [runQueries_cons_ok f _ _ t
                { t with transactions := t.transactions ++ [⟨tx.id, tx.raw, some hh⟩] }
                hf rfl] at hmid
            have hout := outs_run f hash160 tx.id hh tx.outputs.enum _ _ hmid
            have hrest := ih t3 t1 h
            refine ⟨?_, ?_, ?_, ?_, ?_⟩
            · intro r hr
              exact hrest.1 r (hout.1 ▸ hr)
            · intro r hr
              refine hrest.2.1 r ?_
              rw [hout.2.1]
              exact List.mem_append_left _ hr
            · intro r hr
              exact hrest.2.2.1 r (hout.2.2.2.2.1 r hr)
            · intro tx2 htx2
              rcases List.mem_cons.mp htx2 with rfl | htx2
              · refine hrest.2.1 _ ?_
                rw [hout.2.1]
                exact List.mem_append_right _ (by simp)
              · exact hrest.2.2.2.1 tx2 htx2
            · intro tx2 htx2 p hp a ha
              rcases List.mem_cons.mp htx2 with rfl | htx2
              · exact hrest.2.2.1 _ (hout.2.2.2.2.2 p hp a ha)
              · exact hrest.2.2.2.2 tx2 htx2 p hp a ha

/-- Claim C5: a block import is all-or-nothing.  Every write of the block —
the block row, a `transactions` row for each of its transactions, and a
`history` row for every address the extractor yields for an output — is
issued inside the single `executeTransaction` of the import branch, so either
the transaction aborts and storage is exactly as before (no partial block is
visible), or it commits and the block row, all transaction rows and all
ownership rows are present together. -/
theorem importBlock_atomic (hash160 : List Nat → List Nat) (fails : Query → Bool)
    (flag : Bool) (h : Nat) (b : Block) (st : Storage) :
    (executeTransaction fails (importBlockQueries hash160 flag h b) st).1 = st
    ∨ ((⟨h, b.id, b.header, (b.transactions.map Tx.id).flatten⟩ : BlockRow) ∈
          (executeTransaction fails (importBlockQueries hash160 flag h b) st).1.blocks
        ∧ (∀ tx ∈ b.transactions, (⟨tx.id, tx.raw, some h⟩ : TxRow) ∈
            (executeTransaction fails (importBlockQueries hash160 flag h b) st).1.transactions)
        ∧ (∀ tx ∈ b.transactions, ∀ p ∈ tx.outputs.enum,
            ∀ a ∈ extractAddresses hash160 p.2.script,
              (⟨a, tx.id, p.1, p.2.satoshis, some h⟩ : HistoryRow) ∈
                (executeTransaction fails (importBlockQueries hash160 flag h b) st).1.history)) := by
  cases hrun : runQueries fails (importBlockQueries hash160 flag h b) st with
  | none =>
      left
      simp [executeTransaction, hrun]
  | some st1 =>
      right
      simp only [executeTransaction, hrun]
      rw [show importBlockQueries hash160 flag h b =
          tryTruncateQueries flag ++
            (blockInsertQuery h b ::
              storeTransactionsQueries hash160 b.transactions (some h)) from rfl,
        runQueries_append] at hrun
      cases htr : runQueries fails (tryTruncateQueries flag) st with
      | none => rw [htr] at hrun; exact Option.noConfusion hrun
      | some st2 =>
          rw [htr] at hrun
          have hrun2 : runQueries fails
              (blockInsertQuery h b ::
                storeTransactionsQueries hash160 b.transactions (some h)) st2 = some st1 := hrun
          by_cases hfb : fails (blockInsertQuery h b)
          · rw [show runQueries fails
                (blockInsertQuery h b ::
                  storeTransactionsQueries hash160 b.transactions (some h)) st2 =
                none by simp [runQueries, hfb]] at hrun2
            exact Option.noConfusion hrun2
          · rw [runQueries_cons_ok fails _ _ st2
                { st2 with blocks := st2.blocks ++
                    [⟨h, b.id, b.header, (b.transactions.map Tx.id).flatten⟩] }
                hfb rfl] at hrun2
            have hs := store_run fails hash160 h b.transactions _ _ hrun2
            exact ⟨hs.1 _ (List.mem_append_right _ (by simp)),
              fun tx htx => hs.2.2.2.1 tx htx,
              fun tx htx p hp a ha => hs.2.2.2.2 tx htx p hp a ha⟩

def c5Tx : Tx := ⟨[7], [8], [⟨p2pkhScript, 5000⟩, ⟨nonstdScript, 77⟩]⟩

def c5Block : Block := ⟨[21], [22], [c5Tx]⟩

/-- Claim C5 witness at a concrete block (one pay-to-public-key-hash output
and one nonstandard output, as in scenario C of the spec). -/
theorem importBlock_atomic_witness :
    (executeTransaction (fun _ => false)
        (importBlockQueries (fun l => l) false 1 c5Block) emptyStorage).1 = emptyStorage
    ∨ ((⟨1, c5Block.id, c5Block.header, (c5Block.transactions.map Tx.id).flatten⟩ : BlockRow) ∈
          (executeTransaction (fun _ => false)
            (importBlockQueries (fun l => l) false 1 c5Block) emptyStorage).1.blocks
        ∧ (∀ tx ∈ c5Block.transactions, (⟨tx.id, tx.raw, some 1⟩ : TxRow) ∈
            (executeTransaction (fun _ => false)
              (importBlockQueries (fun l => l) false 1 c5Block) emptyStorage).1.transactions)
        ∧ (∀ tx ∈ c5Block.transactions, ∀ p ∈ tx.outputs.enum,
            ∀ a ∈ extractAddresses (fun l => l) p.2.script,
              (⟨a, tx.id, p.1, p.2.satoshis, some 1⟩ : HistoryRow) ∈
                (executeTransaction (fun _ => false)
                  (importBlockQueries (fun l => l) false 1 c5Block) emptyStorage).1.history)) :=
  importBlock_atomic (fun l => l) (fun _ => false) false 1 c5Block emptyStorage

/-! ## Claim C10: mempool-mode storeTransactions -/

theorem addr_run_rows4 (f : Query → Bool) (tid : List Nat) (i v : Nat) :
    ∀ (addrs : List Addr) (t t1 : Storage),
      runQueries f (addrInsertQueries .insertHistory4
          [.vStr tid, .vNum i, .vNum v] addrs) t = some t1 →
      t1.blocks = t.blocks
      ∧ t1.transactions = t.transactions
      ∧ t1.transactions_mempool = t.transactions_mempool
      ∧ t1.history_mempool = t.history_mempool
      ∧ (∀ r ∈ t.history, r ∈ t1.history)
      ∧ (∀ r ∈ t1.history, r ∈ t.history ∨ r.height = none)
      ∧ ∀ a ∈ addrs, (⟨a, tid, i, v, none⟩ : HistoryRow) ∈ t1.history := by
  intro addrs t t1 h
  match addrs with
  | [] =>
      simp only [addrInsertQueries, runQueries, Option.some.injEq] at h
      subst h
      exact ⟨rfl, rfl, rfl, rfl, fun r hr => hr, fun r hr => Or.inl hr, by simp⟩
  | [a] =>
      by_cases hf : f ⟨.insertHistory4, [.vAddr a, .vStr tid, .vNum i, .vNum v]⟩
      · simp [addrInsertQueries, runQueries, hf] at h
      · rw [show addrInsertQueries Sql.insertHistory4 [.vStr tid, .vNum i, .vNum v] [a] =
            [⟨.insertHistory4, [.vAddr a, .vStr tid, .vNum i, .vNum v]⟩] from rfl,
          runQueries_cons_ok f _ _ t
            { t with history := t.history ++ [⟨a, tid, i, v, none⟩] } hf rfl] at h
        simp only [runQueries, Option.some.injEq] at h
        subst h
        refine ⟨rfl, rfl, rfl, rfl, fun r hr => List.mem_append_left _ hr, ?_, ?_⟩
        · intro r hr
          rcases List.mem_append.mp hr with hr | hr
          · exact Or.inl hr
          · rw [List.mem_singleton] at hr
            subst hr
            exact Or.inr rfl
        · intro x hx
          rw [List.mem_singleton] at hx
          subst hx
          exact List.mem_append_right _ (by simp)
  | a :: a2 :: rest =>
      exfalso
      by_cases hf1 : f ⟨.insertHistory4, [.vAddr a, .vStr tid, .vNum i, .vNum v]⟩
      · simp [addrInsertQueries, runQueries, hf1] at h
      · rw [show addrInsertQueries Sql.insertHistory4 [.vStr tid, .vNum i, .vNum v]
              (a :: a2 :: rest) =
            ⟨.insertHistory4, [.vAddr a, .vStr tid, .vNum i, .vNum v]⟩ ::
              addrInsertQueries Sql.insertHistory4
                [.vAddr a, .vStr tid, .vNum i, .vNum v] (a2 :: rest) from rfl,
          runQueries_cons_ok f _ _ t
            { t with history := t.history ++ [⟨a, tid, i, v, none⟩] } hf1 rfl] at h
        by_cases hf2 : f ⟨.insertHistory4, [.vAddr a2, .vAddr a, .vStr tid, .vNum i, .vNum v]⟩ <;>
          simp [addrInsertQueries, runQueries, applyQuery, hf1, hf2] at h

theorem outs_run4 (f : Query → Bool) (hash160 : List Nat → List Nat) (tid : List Nat) :
    ∀ (l : List (Nat × Output)) (t t1 : Storage),
      runQueries f ((l.map (fun p => addrInsertQueries .insertHistory4
          [.vStr tid, .vNum p.1, .vNum p.2.satoshis]
          (extractAddresses hash160 p.2.script))).flatten) t = some t1 →
      t1.blocks = t.blocks
      ∧ t1.transactions = t.transactions
      ∧ t1.transactions_mempool = t.transactions_mempool
      ∧ t1.history_mempool = t.history_mempool
      ∧ (∀ r ∈ t.history, r ∈ t1.history)
      ∧ (∀ r ∈ t1.history, r ∈ t.history ∨ r.height = none)
      ∧ ∀ p ∈ l, ∀ a ∈ extractAddresses hash160 p.2.script,
          (⟨a, tid, p.1, p.2.satoshis, none⟩ : HistoryRow) ∈ t1.history := by
  intro l
  induction l with
  | nil =>
      intro t t1 h
      simp only [List.map_nil, List.flatten_nil, runQueries, Option.some.injEq] at h
      subst h
      exact ⟨rfl, rfl, rfl, rfl, fun r hr => hr, fun r hr => Or.inl hr, by simp⟩
  | cons p rest ih =>
      intro t t1 h
      rw [List.map_cons, List.flatten_cons, runQueries_append] at h
      cases hmid : runQueries f (addrInsertQueries .insertHistory4
          [.vStr tid, .vNum p.1, .vNum p.2.satoshis]
          (extractAddresses hash160 p.2.script)) t with
      | none => rw [hmid] at h; exact Option.noConfusion h
      | some t2 =>
          rw [hmid] at h
          have h1 := addr_run_rows4 f tid p.1 p.2.satoshis
            (extractAddresses hash160 p.2.script) t t2 hmid
          have h2 := ih t2 t1 h
          refine ⟨by rw [h2.1, h1.1], by rw [h2.2.1, h1.2.1],
            by rw [h2.2.2.1, h1.2.2.1], by rw [h2.2.2.2.1, h1.2.2.2.1],
            fun r hr => h2.2.2.2.2.1 r (h1.2.2.2.2.1 r hr), ?_, ?_⟩
          · intro r hr
            rcases h2.2.2.2.2.2.1 r hr with hr2 | hr2
            · exact h1.2.2.2.2.2.1 r hr2
            · exact Or.inr hr2
          · intro p2 hp2 a ha
            rcases List.mem_cons.mp hp2 with rfl | hp2
            · exact h2.2.2.2.2.1 _ (h1.2.2.2.2.2.2 a ha)
            · exact h2.2.2.2.2.2.2 p2 hp2 a ha

theorem store_run_mempool (f : Query → Bool) (hash160 : List Nat → List Nat) :
    ∀ (txs : List Tx) (t t1 : Storage),
      runQueries f (storeTransactionsQueries hash160 txs none) t = some t1 →
      t1.history_mempool = t.history_mempool
      ∧ (∀ r ∈ t.transactions_mempool, r ∈ t1.transactions_mempool)
      ∧ (∀ r ∈ t.history, r ∈ t1.history)
      ∧ (∀ r ∈ t1.history, r ∈ t.history ∨ r.height = none)
      ∧ (∀ tx ∈ txs, (⟨tx.id, tx.raw⟩ : MempoolTxRow) ∈ t1.transactions_mempool)
      ∧ (∀ tx ∈ txs, ∀ p ∈ tx.outputs.enum, ∀ a ∈ extractAddresses hash160 p.2.script,
          (⟨a, tx.id, p.1, p.2.satoshis, none⟩ : HistoryRow) ∈ t1.history) := by
  intro txs
  induction txs with
  | nil =>
      intro t t1 h
      simp only [storeTransactionsQueries, List.map_nil, List.flatten_nil, runQueries,
        Option.some.injEq] at h
      subst h
      exact ⟨rfl, fun r hr => hr, fun r hr => hr, fun r hr => Or.inl hr, by simp, by simp⟩
  | cons tx rest ih =>
      intro t t1 h
      have hq : storeTransactionsQueries hash160 (tx :: rest) none =
          (saveTxQuery none tx :: saveOutputsQueries hash160 none tx)
            ++ storeTransactionsQueries hash160 rest none := by
        simp [storeTransactionsQueries, saveInputsQueries]
      rw [hq, runQueries_append] at h
      cases hmid : runQueries f
          (saveTxQuery none tx :: saveOutputsQueries hash160 none tx) t with
      | none => rw [hmid] at h; exact Option.noConfusion h
      | some t3 =>
          rw [hmid] at h
          by_cases hf : f (saveTxQuery none tx)
          · rw [show runQueries f
                (saveTxQuery none tx :: saveOutputsQueries hash160 none tx) t =
                none by simp [runQueries, hf]] at hmid
            exact Option.noConfusion hmid
          · rw [runQueries_cons_ok f _ _ t
                { t with transactions_mempool :=
                    t.transactions_mempool ++ [⟨tx.id, tx.raw⟩] } hf rfl] at hmid
            have hout := outs_run4 f hash160 tx.id tx.outputs.enum _ _ hmid
            have hrest := ih t3 t1 h
            refine ⟨by rw [hrest.1, hout.2.2.2.1], ?_, ?_, ?_, ?_, ?_⟩
            · intro r hr
              refine hrest.2.1 r ?_
              rw [hout.2.2.1]
              exact List.mem_append_left _ hr
            · intro r hr
              exact hrest.2.2.1 r (hout.2.2.2.2.1 r hr)
            · intro r hr
              rcases hrest.2.2.2.1 r hr with hr2 | hr2
              · exact hout.2.2.2.2.2.1 r hr2
              · exact Or.inr hr2
            · intro tx2 htx2
              rcases List.mem_cons.mp htx2 with rfl | htx2
              · refine hrest.2.1 _ ?_
                rw [hout.2.2.1]
                exact List.mem_append_right _ (by simp)
              · exact hrest.2.2.2.2.1 tx2 htx2
            · intro tx2 htx2 p hp a ha
              rcases List.mem_cons.mp htx2 with rfl | htx2
              · exact hrest.2.2.1 _ (hout.2.2.2.2.2.2 p hp a ha)
              · exact hrest.2.2.2.2.2 tx2 htx2 p hp a ha

/-- Claim C10: in mempool mode (`height` absent) `storeTransactions` inserts
the transaction row into `transactions_mempool`, but every ownership row for
an extracted address is issued against the confirmed `history` table — the
mempool `storeOut` statement reads `INSERT INTO history (address, txid,
index, value)` — with its height column absent, and nothing is ever inserted
into `history_mempool`. -/
theorem storeTransactions_mempool_targets (hash160 : List Nat → List Nat) (txs : List Tx) :
    (∀ q ∈ storeTransactionsQueries hash160 txs none,
        q.sql = Sql.insertTransactionsMempool ∨ q.sql = Sql.insertHistory4)
    ∧ (∀ tx ∈ txs, saveTxQuery none tx ∈ storeTransactionsQueries hash160 txs none)
    ∧ (∀ (f : Query → Bool) (t t1 : Storage),
        runQueries f (storeTransactionsQueries hash160 txs none) t = some t1 →
          t1.history_mempool = t.history_mempool
          ∧ (∀ r ∈ t1.history, r ∈ t.history ∨ r.height = none)
          ∧ (∀ tx ∈ txs, (⟨tx.id, tx.raw⟩ : MempoolTxRow) ∈ t1.transactions_mempool)
          ∧ (∀ tx ∈ txs, ∀ p ∈ tx.outputs.enum, ∀ a ∈ extractAddresses hash160 p.2.script,
              (⟨a, tx.id, p.1, p.2.satoshis, none⟩ : HistoryRow) ∈ t1.history)) := by
  refine ⟨?_, fun tx htx => saveTx_mem hash160 txs tx none htx, ?_⟩
  · intro q hq
    unfold storeTransactionsQueries at hq
    rw [List.mem_flatten] at hq
    obtain ⟨l, hl, hql⟩ := hq
    rw [List.mem_map] at hl
    obtain ⟨tx, _, rfl⟩ := hl
    rcases List.mem_cons.mp hql with rfl | hql
    · exact Or.inl rfl
    · rw [show saveInputsQueries tx = [] from rfl, List.nil_append] at hql
      unfold saveOutputsQueries at hql
      rw [List.mem_flatten] at hql
      obtain ⟨l2, hl2, hql2⟩ := hql
      rw [List.mem_map] at hl2
      obtain ⟨p, _, rfl⟩ := hl2
      exact Or.inr (addrInsertQueries_sql (storeOutSql none) _ _ q hql2)
  · intro f t t1 h
    have hs := store_run_mempool f hash160 txs t t1 h
    exact ⟨hs.1, hs.2.2.2.1, hs.2.2.2.2.1, hs.2.2.2.2.2⟩

def c10Tx : Tx := ⟨[7], [8], [⟨p2pkhScript, 5000⟩]⟩

def c10St : Storage :=
  { emptyStorage with
    transactions_mempool := [⟨[5], [5]⟩],
    history_mempool := [⟨⟨[], .payToScriptHash⟩, [9], 0, 1⟩] }

/-- Claim C10 witness: a concrete mempool-mode call leaves `history_mempool`
exactly as it was. -/
theorem storeTransactions_mempool_targets_witness :
    ((executeTransaction (fun _ => false)
        (storeTransactionsQueries (fun l => l) [c10Tx] none) c10St).1).history_mempool
      = c10St.history_mempool :=
  ((storeTransactions_mempool_targets (fun l => l) [c10Tx]).2.2 (fun _ => false) c10St
    ((executeTransaction (fun _ => false)
        (storeTransactionsQueries (fun l => l) [c10Tx] none) c10St).1) (by decide)).1

end Chromanode
